import Mathlib

/-!
# Verification of `telegram-file-exporter`

Shallow embedding of `src/telegram_file_exporter/main.py`: the per-message
processing pipeline (`process_message`) and the run orchestration
(`export_documents`), with external effects (filesystem existence probes,
media transfers, the manifest writer) made explicit as parameters and
recorded observations.
-/

namespace TelegramFileExporter

/-- Operating mode; `argparse` restricts `--mode` to these two choices. -/
inductive Mode where
  | list
  | download
deriving DecidableEq, Repr

/-- One document attribute: `some s` models an attribute object carrying a
`file_name` field with raw value `s`; `none` models an attribute without a
`file_name` field (so `hasattr(attr, "file_name")` is false). -/
abbrev DocAttr := Option String

/-- The inner `document` object of a `MessageMediaDocument`: its attribute
list and declared byte size. -/
structure TLDocument where
  attributes : List DocAttr
  size : Nat
deriving DecidableEq, Repr

/-- A `MessageMediaDocument` value; its `document` field can be `None` in
the transport library, in which case `doc.document.attributes` raises. -/
structure MediaDoc where
  document : Option TLDocument
deriving DecidableEq, Repr

/-- The `message.media` field as the code inspects it: absent (or some
non-document media, which fails the `isinstance` check the same way), a
single `MessageMediaDocument`, or a list of them (the shape the code's
`isinstance(message.media, list)` branch anticipates). -/
inductive Media where
  | noMedia
  | mediaDocument (d : MediaDoc)
  | mediaList (ds : List MediaDoc)
deriving DecidableEq, Repr

/-- A message from the source: identifier, its date pre-rendered in the two
`strftime` formats the code uses, and its media field. -/
structure Message where
  id : Int
  dateYMD : String
  dateFull : String
  media : Media
deriving DecidableEq, Repr

/-- A resolved channel: numeric identity (possibly negative), optional
public handle, display name. -/
structure Channel where
  id : Int
  username : Option String
  displayName : String
deriving DecidableEq, Repr

/-- Exceptions that the embedded fragment can raise: channel resolution
failure at `client.get_entity`, or the `AttributeError` raised by
`doc.document.attributes` when `document` is `None`. -/
inductive ExportError where
  | resolveFailure
  | docAccessError (msgId : Int)
deriving DecidableEq, Repr

/-- The `file_data` dict built by `process_message` for an admissible file. -/
structure FileData where
  fileName : String
  filePath : Option String
  postUrl : String
  fileExists : Bool
  fsizeMB : ℚ
deriving DecidableEq, Repr

/-- One `message_data` row appended to `channel_data` (the manifest). -/
structure ManifestEntry where
  fileName : String
  datePosted : String
  combinedName : String
  postUrl : String
deriving DecidableEq, Repr

/-- Embeds `sanitize_filename`: `f"{date_posted_yyyymmdd}-{file_name}"`. -/
def sanitizeFilename (m : Message) (fileName : String) : String :=
  m.dateYMD ++ "-" ++ fileName

/-- Embeds `get_post_url`: public handle when present and truthy, else the
`/c/{abs(id)}` form. -/
def getPostUrl (ch : Channel) (m : Message) : String :=
  match ch.username with
  | some u =>
      if u = "" then "https://t.me/c/" ++ toString ch.id.natAbs ++ "/" ++ toString m.id
      else "https://t.me/" ++ u ++ "/" ++ toString m.id
  | none => "https://t.me/c/" ++ toString ch.id.natAbs ++ "/" ++ toString m.id

/-- Python `rfind`: index of the last character satisfying `p`, `-1` when
there is none. -/
def rfindIdx (p : Char → Bool) (cs : List Char) : Int :=
  match cs.reverse.findIdx? p with
  | none => -1
  | some j => (cs.length : Int) - 1 - (j : Int)

/-- Embeds `os.path.splitext(p)[-1]` on POSIX (`sep = '/'`): the suffix from the
last dot, provided that dot lies after the last separator and some non-dot
character stands between them (leading dots of the basename never start an
extension). -/
def splitextExt (p : String) : String :=
  let cs := p.data
  let sepIndex := rfindIdx (fun c => c = '/') cs
  let dotIndex := rfindIdx (fun c => c = '.') cs
  if sepIndex < dotIndex then
    if (List.range cs.length).any (fun i =>
        decide (sepIndex < (i : Int)) && decide ((i : Int) < dotIndex)
          && (cs.getD i '.' != '.')) then
      String.mk (cs.drop dotIndex.toNat)
    else ""
  else ""

/-- Python `str.lower()` (ASCII case folding), written over the character
list so that it evaluates by kernel reduction. -/
def pyLower (s : String) : String :=
  String.mk (s.data.map Char.toLower)

/-- Python `str.strip()` with no argument: drop whitespace from both ends. -/
def pyStrip (s : String) : String :=
  String.mk (((s.data.dropWhile Char.isWhitespace).reverse.dropWhile
    Char.isWhitespace).reverse)

/-- Extension as the code derives it: `os.path.splitext(file_name)[-1].lower()`. -/
def fileExt (name : String) : String :=
  pyLower (splitextExt name)

/-- ExtensionPolicy as inlined at line 171:
`file_ext in (ext.lower() for ext in allowed_extensions)`. -/
def isAllowed (ext : String) (allowed : List String) : Bool :=
  allowed.any (fun e => ext == pyLower e)

/-- The value `fsize_mb = sizeBytes / (1024 * 1024)` of line 176 as an
exact rational; written with `mkRat` so it evaluates by kernel reduction,
and proved equal to the field division in `fsizeMBOf_eq_div` below. -/
def fsizeMBOf (sizeBytes : Nat) : ℚ :=
  mkRat sizeBytes (1024 * 1024)

/-- SizePolicy as inlined at lines 176-177: the file is kept unless
`fsize_mb > maxsize_mb`. -/
def isWithinLimit (sizeBytes : Nat) (limitMB : ℤ) : Bool :=
  !decide (fsizeMBOf sizeBytes > (limitMB : ℚ))

/-- Embeds `next((attr.file_name.strip() for attr in attributes if hasattr(attr,
"file_name")), None)`: the first attribute carrying a file name, stripped. -/
def firstFileName (attrs : List DocAttr) : Option String :=
  (attrs.filterMap id).head?.map pyStrip

/-- Embeds `os.path.join` for the two-argument uses in the code. -/
def osPathJoin (a b : String) : String :=
  if b.data.head? = some '/' then b
  else if a = "" then b
  else if a.data.getLast? = some '/' then a ++ b
  else a ++ "/" ++ b

/-- Body of the `for doc in media` loop of `process_message` for one
`MessageMediaDocument`: `.error` models the `AttributeError` on a missing
inner document, `.ok none` a skip (`continue`), `.ok (some fd)` an
admissible file. `fsExists` is the `os.path.exists` capability. -/
def processDoc (m : Message) (ch : Channel) (allowed : List String)
    (maxsizeMB : ℤ) (downloadDir : String) (mode : Mode)
    (fsExists : String → Bool) (d : MediaDoc) :
    Except ExportError (Option FileData) :=
  match d.document with
  | none => .error (.docAccessError m.id)
  | some doc =>
    match firstFileName doc.attributes with
    | none => .ok none
    | some nm =>
      if nm = "" then .ok none
      else
        let ext := fileExt nm
        if !isAllowed ext allowed then .ok none
        else if !isWithinLimit doc.size maxsizeMB then .ok none
        else
          let fsize : ℚ := fsizeMBOf doc.size
          let combined := sanitizeFilename m nm
          let url := getPostUrl ch m
          if mode = Mode.download then
            let path := osPathJoin downloadDir combined
            .ok (some { fileName := nm, filePath := some path, postUrl := url,
                        fileExists := fsExists path, fsizeMB := fsize })
          else
            .ok (some { fileName := nm, filePath := none, postUrl := url,
                        fileExists := false, fsizeMB := fsize })

/-- Embeds `process_message`: returns `[]` when `message.media` is falsy or not a
`MessageMediaDocument` (a list-valued media fails the `isinstance` check at
line 146, so both the empty and the non-empty list case return early);
otherwise iterates over the singleton `[message.media]`. -/
def processMessage (m : Message) (ch : Channel) (allowed : List String)
    (maxsizeMB : ℤ) (downloadDir : String) (mode : Mode)
    (fsExists : String → Bool) : Except ExportError (List FileData) :=
  match m.media with
  | .noMedia => .ok []
  | .mediaList _ => .ok []
  | .mediaDocument d =>
    match processDoc m ch allowed maxsizeMB downloadDir mode fsExists d with
    | .error e => .error e
    | .ok none => .ok []
    | .ok (some fd) => .ok [fd]

/-- Mutable state of the `export_documents` loop: the three counters, the
accumulated `channel_data`, and the record of `client.download_media`
invocations (destination paths, in order). -/
structure RunState where
  downloaded : Nat
  existed : Nat
  processed : Nat
  channelData : List ManifestEntry
  transfers : List String
deriving DecidableEq, Repr

/-- The initial run state (`files_downloaded, files_existed, processed = 0, 0, 0`). -/
def initState : RunState :=
  { downloaded := 0, existed := 0, processed := 0, channelData := [], transfers := [] }

/-- The `message_data` row built at lines 271-276 from one `file_data`. -/
def mkEntry (m : Message) (fd : FileData) : ManifestEntry :=
  { fileName := fd.fileName, datePosted := m.dateFull,
    combinedName := sanitizeFilename m fd.fileName, postUrl := fd.postUrl }

/-- Body of the `for file_data in files_data` loop (lines 266-284): append
the manifest row, then in download mode either request a transfer and count
it downloaded, or count it already existing. -/
def applyFileData (mode : Mode) (m : Message) (st : RunState) (fd : FileData) :
    RunState :=
  let st1 := { st with channelData := st.channelData ++ [mkEntry m fd] }
  if mode = Mode.download && !fd.fileExists then
    { st1 with transfers := st1.transfers ++ [fd.filePath.getD ""],
               downloaded := st1.downloaded + 1 }
  else if fd.fileExists then
    { st1 with existed := st1.existed + 1 }
  else st1

/-- One iteration of the `async for message` loop: increment `processed`,
run `process_message`, then fold its `files_data`. An exception escapes to
the run-level handler carrying the state reached so far. -/
def stepMessage (ch : Channel) (allowed : List String) (maxsizeMB : ℤ)
    (downloadDir : String) (mode : Mode) (fsExists : String → Bool)
    (st : RunState) (m : Message) : Except (RunState × ExportError) RunState :=
  let st1 := { st with processed := st.processed + 1 }
  match processMessage m ch allowed maxsizeMB downloadDir mode fsExists with
  | .error e => .error (st1, e)
  | .ok fds => .ok (fds.foldl (applyFileData mode m) st1)

/-- The bounded iteration (lines 251-291) over the messages the source
yields (already truncated to `limit=max_limit` by `iter_messages`); the
`processed >= max_limit` break at line 290 is kept. -/
def processLoop (ch : Channel) (allowed : List String) (maxsizeMB : ℤ)
    (downloadDir : String) (mode : Mode) (fsExists : String → Bool)
    (maxLimit : Nat) : List Message → RunState →
    Except (RunState × ExportError) RunState
  | [], st => .ok st
  | m :: rest, st =>
    match stepMessage ch allowed maxsizeMB downloadDir mode fsExists st m with
    | .error e => .error e
    | .ok st2 =>
      if maxLimit ≤ st2.processed then .ok st2
      else processLoop ch allowed maxsizeMB downloadDir mode fsExists maxLimit rest st2

/-- Observable outcome of one `export_documents` run: the loop state
reached, whether the manifest writer was invoked, and the error (if any)
caught by the run-level `except` handler. -/
structure RunResult where
  processed : Nat
  manifest : List ManifestEntry
  downloaded : Nat
  existed : Nat
  transfers : List String
  writerInvoked : Bool
  error : Option ExportError
deriving DecidableEq, Repr

/-- Embeds `export_documents`: `resolved` is the outcome of
`client.get_entity(channel_name)`; on failure the `except` handler fires
before any iteration. Otherwise the loop runs on `msgs.take maxLimit` (the
`limit=max_limit` of `iter_messages`) and, if the loop completes and
`output` is set, the writer is invoked once with the accumulated
`channel_data`. -/
def exportDocuments (resolved : Except ExportError Channel)
    (msgs : List Message) (maxLimit : Nat) (mode : Mode) (output : Bool)
    (downloadDir : String) (maxsizeMB : ℤ) (allowed : List String)
    (fsExists : String → Bool) : RunResult :=
  match resolved with
  | .error e =>
    { processed := 0, manifest := [], downloaded := 0, existed := 0,
      transfers := [], writerInvoked := false, error := some e }
  | .ok ch =>
    match processLoop ch allowed maxsizeMB downloadDir mode fsExists maxLimit
        (msgs.take maxLimit) initState with
    | .error (st, e) =>
      { processed := st.processed, manifest := st.channelData,
        downloaded := st.downloaded, existed := st.existed,
        transfers := st.transfers, writerInvoked := false, error := some e }
    | .ok st =>
      { processed := st.processed, manifest := st.channelData,
        downloaded := st.downloaded, existed := st.existed,
        transfers := st.transfers, writerInvoked := output, error := none }

/-- A message whose processing cannot raise: its media is not a list (the
realistic transport domain — the client library never yields a list there)
and, when a document is attached, the inner `document` object is present. -/
def cleanMsg (m : Message) : Bool :=
  match m.media with
  | .noMedia => true
  | .mediaDocument d => d.document.isSome
  | .mediaList _ => false

/-- The admissibility checks of the extraction loop, as a predicate on the
inner document: a file-name attribute whose stripped value is non-empty, an
allowed extension, and a size within the limit. -/
def passesChecks (allowed : List String) (maxsizeMB : ℤ) (doc : TLDocument) :
    Bool :=
  match firstFileName doc.attributes with
  | none => false
  | some nm => nm != "" && isAllowed (fileExt nm) allowed
      && isWithinLimit doc.size maxsizeMB

/-- Specification-side characterization of a message's manifest
contribution: one entry exactly when its attachment passes all three
checks, none otherwise (and none when media is absent). -/
def admissibleEntries (ch : Channel) (allowed : List String) (maxsizeMB : ℤ)
    (m : Message) : List ManifestEntry :=
  match m.media with
  | .mediaDocument d =>
    match d.document with
    | some doc =>
      match firstFileName doc.attributes with
      | some nm =>
        if nm != "" && isAllowed (fileExt nm) allowed
            && isWithinLimit doc.size maxsizeMB then
          [{ fileName := nm, datePosted := m.dateFull,
             combinedName := sanitizeFilename m nm,
             postUrl := getPostUrl ch m }]
        else []
      | none => []
    | none => []
  | _ => []

deriving instance DecidableEq for Except

/-! ## Characterization of the per-document pipeline -/

/-- The decision `process_message` reaches for one attached document whose
inner `document` object is present: `none` when a check rejects it, else
the `file_data` it builds (resolving path and existence only in download
mode). -/
def docDecision (m : Message) (ch : Channel) (allowed : List String)
    (maxsizeMB : ℤ) (downloadDir : String) (mode : Mode)
    (fsExists : String → Bool) (doc : TLDocument) : Option FileData :=
  match firstFileName doc.attributes with
  | none => none
  | some nm =>
    if nm != "" && isAllowed (fileExt nm) allowed
        && isWithinLimit doc.size maxsizeMB then
      some (if mode = Mode.download then
        { fileName := nm,
          filePath := some (osPathJoin downloadDir (sanitizeFilename m nm)),
          postUrl := getPostUrl ch m,
          fileExists := fsExists (osPathJoin downloadDir (sanitizeFilename m nm)),
          fsizeMB := fsizeMBOf doc.size }
      else
        { fileName := nm, filePath := none, postUrl := getPostUrl ch m,
          fileExists := false, fsizeMB := fsizeMBOf doc.size })
    else none

theorem processDoc_char (m : Message) (ch : Channel) (allowed : List String)
    (maxsizeMB : ℤ) (dir : String) (mode : Mode) (fs : String → Bool)
    (d : MediaDoc) (doc : TLDocument) (hd : d.document = some doc) :
    processDoc m ch allowed maxsizeMB dir mode fs d =
      .ok (docDecision m ch allowed maxsizeMB dir mode fs doc) := by
  simp only [processDoc, hd, docDecision]
  cases hnm : firstFileName doc.attributes with
  | none => rfl
  | some nm =>
    by_cases h1 : nm = ""
    · simp [h1]
    · cases h2 : isAllowed (fileExt nm) allowed with
      | false => simp [h1, h2]
      | true =>
        cases h3 : isWithinLimit doc.size maxsizeMB with
        | false => simp [h1, h2, h3]
        | true => cases mode <;> simp [h1, h2, h3]

theorem processMessage_eq (m : Message) (ch : Channel) (allowed : List String)
    (maxsizeMB : ℤ) (dir : String) (mode : Mode) (fs : String → Bool)
    (d : MediaDoc) (doc : TLDocument) (hm : m.media = .mediaDocument d)
    (hd : d.document = some doc) :
    processMessage m ch allowed maxsizeMB dir mode fs =
      .ok (docDecision m ch allowed maxsizeMB dir mode fs doc).toList := by
  simp only [processMessage, hm, processDoc_char m ch allowed maxsizeMB dir mode fs d doc hd]
  cases docDecision m ch allowed maxsizeMB dir mode fs doc <;> rfl

theorem docDecision_entries (m : Message) (ch : Channel)
    (allowed : List String) (maxsizeMB : ℤ) (dir : String) (mode : Mode)
    (fs : String → Bool) (d : MediaDoc) (doc : TLDocument)
    (hm : m.media = .mediaDocument d) (hd : d.document = some doc) :
    ((docDecision m ch allowed maxsizeMB dir mode fs doc).toList).map (mkEntry m)
      = admissibleEntries ch allowed maxsizeMB m := by
  cases hnm : firstFileName doc.attributes with
  | none => simp [docDecision, admissibleEntries, hm, hd, hnm]
  | some nm =>
    by_cases hc : (nm != "" && isAllowed (fileExt nm) allowed
        && isWithinLimit doc.size maxsizeMB) = true
    · cases mode <;> simp [docDecision, admissibleEntries, hm, hd, hnm, hc, mkEntry]
    · simp [docDecision, admissibleEntries, hm, hd, hnm, hc]

theorem docDecision_list_fields (m : Message) (ch : Channel)
    (allowed : List String) (maxsizeMB : ℤ) (dir : String)
    (fs : String → Bool) (doc : TLDocument) (fd : FileData)
    (h : docDecision m ch allowed maxsizeMB dir .list fs doc = some fd) :
    fd.fileExists = false ∧ fd.filePath = none := by
  cases hnm : firstFileName doc.attributes with
  | none => rw [docDecision, hnm] at h; exact absurd h (by simp)
  | some nm =>
    by_cases hc : (nm != "" && isAllowed (fileExt nm) allowed
        && isWithinLimit doc.size maxsizeMB) = true
    · rw [docDecision, hnm] at h
      simp only [hc, if_true] at h
      rw [if_neg (by simp)] at h
      simp only [Option.some_inj] at h
      subst h
      exact ⟨rfl, rfl⟩
    · rw [docDecision, hnm] at h
      simp only [hc, if_false] at h
      exact absurd h (by simp)

theorem docDecision_list_indep (m : Message) (ch : Channel)
    (allowed : List String) (maxsizeMB : ℤ) (dir : String)
    (fs1 fs2 : String → Bool) (doc : TLDocument) :
    docDecision m ch allowed maxsizeMB dir .list fs1 doc
      = docDecision m ch allowed maxsizeMB dir .list fs2 doc := by
  simp [docDecision]

theorem processMessage_clean (m : Message) (ch : Channel)
    (allowed : List String) (maxsizeMB : ℤ) (dir : String) (mode : Mode)
    (fs : String → Bool) (h : cleanMsg m = true) :
    ∃ fds, processMessage m ch allowed maxsizeMB dir mode fs = .ok fds ∧
      fds.map (mkEntry m) = admissibleEntries ch allowed maxsizeMB m := by
  cases hm : m.media with
  | noMedia =>
    exact ⟨[], by simp [processMessage, hm], by simp [admissibleEntries, hm]⟩
  | mediaList ds => simp [cleanMsg, hm] at h
  | mediaDocument d =>
    rw [cleanMsg, hm] at h
    rcases Option.isSome_iff_exists.mp h with ⟨doc, hd⟩
    exact ⟨_, processMessage_eq m ch allowed maxsizeMB dir mode fs d doc hm hd,
      docDecision_entries m ch allowed maxsizeMB dir mode fs d doc hm hd⟩

theorem processMessage_list_fileExists (m : Message) (ch : Channel)
    (allowed : List String) (maxsizeMB : ℤ) (dir : String)
    (fs : String → Bool) (fds : List FileData)
    (h : processMessage m ch allowed maxsizeMB dir .list fs = .ok fds) :
    ∀ fd ∈ fds, fd.fileExists = false ∧ fd.filePath = none := by
  cases hm : m.media with
  | noMedia =>
    simp only [processMessage, hm, Except.ok.injEq] at h
    subst h
    intro fd hfd
    exact absurd hfd (by simp)
  | mediaList ds =>
    simp only [processMessage, hm, Except.ok.injEq] at h
    subst h
    intro fd hfd
    exact absurd hfd (by simp)
  | mediaDocument d =>
    cases hd : d.document with
    | none => simp [processMessage, hm, processDoc, hd] at h
    | some doc =>
      rw [processMessage_eq m ch allowed maxsizeMB dir .list fs d doc hm hd] at h
      simp only [Except.ok.injEq] at h
      subst h
      cases hdd : docDecision m ch allowed maxsizeMB dir .list fs doc with
      | none =>
        intro fd hfd
        exact absurd hfd (by simp)
      | some fd0 =>
        intro fd hfd
        simp only [Option.toList_some, List.mem_singleton] at hfd
        subst hfd
        exact docDecision_list_fields m ch allowed maxsizeMB dir fs doc _ hdd

/-! ## Loop accumulation lemmas -/

theorem applyFileData_channelData (mode : Mode) (m : Message) (st : RunState)
    (fd : FileData) :
    (applyFileData mode m st fd).channelData = st.channelData ++ [mkEntry m fd] := by
  simp only [applyFileData]
  split
  · rfl
  · split <;> rfl

theorem applyFileData_processed (mode : Mode) (m : Message) (st : RunState)
    (fd : FileData) :
    (applyFileData mode m st fd).processed = st.processed := by
  simp only [applyFileData]
  split
  · rfl
  · split <;> rfl

theorem applyFileData_download_sum (m : Message) (st : RunState) (fd : FileData) :
    (applyFileData .download m st fd).downloaded
      + (applyFileData .download m st fd).existed
      = st.downloaded + st.existed + 1 := by
  cases h : fd.fileExists <;> simp [applyFileData, h] <;> omega

theorem applyFileData_list_eq (m : Message) (st : RunState) (fd : FileData)
    (h : fd.fileExists = false) :
    applyFileData .list m st fd
      = { st with channelData := st.channelData ++ [mkEntry m fd] } := by
  simp [applyFileData, h]

theorem foldl_applyFileData_channelData (mode : Mode) (m : Message)
    (fds : List FileData) :
    ∀ st : RunState, (fds.foldl (applyFileData mode m) st).channelData
      = st.channelData ++ fds.map (mkEntry m) := by
  induction fds with
  | nil => intro st; simp
  | cons fd t ih =>
    intro st
    simp [List.foldl_cons, ih, applyFileData_channelData]

theorem foldl_applyFileData_processed (mode : Mode) (m : Message)
    (fds : List FileData) :
    ∀ st : RunState, (fds.foldl (applyFileData mode m) st).processed
      = st.processed := by
  induction fds with
  | nil => intro st; rfl
  | cons fd t ih =>
    intro st
    simp [List.foldl_cons, ih, applyFileData_processed]

theorem foldl_applyFileData_download_sum (m : Message) (fds : List FileData) :
    ∀ st : RunState, (fds.foldl (applyFileData .download m) st).downloaded
      + (fds.foldl (applyFileData .download m) st).existed
      = st.downloaded + st.existed + fds.length := by
  induction fds with
  | nil => intro st; simp
  | cons fd t ih =>
    intro st
    have h1 := ih (applyFileData .download m st fd)
    have h2 := applyFileData_download_sum m st fd
    simp only [List.foldl_cons, List.length_cons]
    omega

theorem foldl_applyFileData_list_counts (m : Message) (fds : List FileData) :
    ∀ st : RunState, (∀ fd ∈ fds, fd.fileExists = false) →
      (fds.foldl (applyFileData .list m) st).downloaded = st.downloaded
      ∧ (fds.foldl (applyFileData .list m) st).existed = st.existed := by
  induction fds with
  | nil => intro st _; exact ⟨rfl, rfl⟩
  | cons fd t ih =>
    intro st h
    have hfd : fd.fileExists = false := h fd (by simp)
    have ht : ∀ x ∈ t, x.fileExists = false := fun x hx => h x (by simp [hx])
    simp only [List.foldl_cons, applyFileData_list_eq m st fd hfd]
    exact ih _ ht

/-- The run state a loop outcome carries, whether it finished or the
run-level handler caught an exception on the way. -/
def loopOutState (r : Except (RunState × ExportError) RunState) : RunState :=
  match r with
  | .ok st => st
  | .error (st, _) => st

theorem stepMessage_ok {ch : Channel} {allowed : List String} {maxsizeMB : ℤ}
    {dir : String} {mode : Mode} {fs : String → Bool} (st : RunState)
    (m : Message) {fds : List FileData}
    (h : processMessage m ch allowed maxsizeMB dir mode fs = .ok fds) :
    stepMessage ch allowed maxsizeMB dir mode fs st m
      = .ok (fds.foldl (applyFileData mode m)
          { st with processed := st.processed + 1 }) := by
  simp [stepMessage, h]

theorem stepMessage_error {ch : Channel} {allowed : List String}
    {maxsizeMB : ℤ} {dir : String} {mode : Mode} {fs : String → Bool}
    (st : RunState) (m : Message) {e : ExportError}
    (h : processMessage m ch allowed maxsizeMB dir mode fs = .error e) :
    stepMessage ch allowed maxsizeMB dir mode fs st m
      = .error ({ st with processed := st.processed + 1 }, e) := by
  simp [stepMessage, h]

theorem processLoop_cons_ok {ch : Channel} {allowed : List String}
    {maxsizeMB : ℤ} {dir : String} {mode : Mode} {fs : String → Bool}
    {maxLimit : Nat} (m : Message) (rest : List Message) (st : RunState)
    {st2 : RunState}
    (h : stepMessage ch allowed maxsizeMB dir mode fs st m = .ok st2) :
    processLoop ch allowed maxsizeMB dir mode fs maxLimit (m :: rest) st =
      if maxLimit ≤ st2.processed then .ok st2
      else processLoop ch allowed maxsizeMB dir mode fs maxLimit rest st2 := by
  simp [processLoop, h]

theorem processLoop_cons_error {ch : Channel} {allowed : List String}
    {maxsizeMB : ℤ} {dir : String} {mode : Mode} {fs : String → Bool}
    {maxLimit : Nat} (m : Message) (rest : List Message) (st : RunState)
    {e : RunState × ExportError}
    (h : stepMessage ch allowed maxsizeMB dir mode fs st m = .error e) :
    processLoop ch allowed maxsizeMB dir mode fs maxLimit (m :: rest) st
      = .error e := by
  simp [processLoop, h]

theorem processLoop_clean (ch : Channel) (allowed : List String)
    (maxsizeMB : ℤ) (dir : String) (mode : Mode) (fs : String → Bool)
    (maxLimit : Nat) (l : List Message) :
    ∀ st : RunState, (∀ m ∈ l, cleanMsg m = true) →
      st.processed + l.length ≤ maxLimit →
      ∃ st2, processLoop ch allowed maxsizeMB dir mode fs maxLimit l st = .ok st2
        ∧ st2.processed = st.processed + l.length
        ∧ st2.channelData = st.channelData
            ++ l.flatMap (admissibleEntries ch allowed maxsizeMB) := by
  induction l with
  | nil => intro st _ _; exact ⟨st, rfl, by simp, by simp⟩
  | cons m rest ih =>
    intro st hclean hlen
    rcases processMessage_clean m ch allowed maxsizeMB dir mode fs
        (hclean m (by simp)) with ⟨fds, hok, hmap⟩
    have hlen2 : st.processed + 1 + rest.length ≤ maxLimit := by
      simp only [List.length_cons] at hlen
      omega
    set stM := fds.foldl (applyFileData mode m)
        { st with processed := st.processed + 1 } with hstM
    have hproc : stM.processed = st.processed + 1 := by
      rw [hstM, foldl_applyFileData_processed]
    have hcd : stM.channelData
        = st.channelData ++ admissibleEntries ch allowed maxsizeMB m := by
      rw [hstM, foldl_applyFileData_channelData, hmap]
    rw [processLoop_cons_ok m rest st (by rw [stepMessage_ok st m hok])]
    by_cases hbreak : maxLimit ≤ stM.processed
    · have hrest : rest = [] := by
        have : rest.length = 0 := by omega
        exact List.length_eq_zero.mp this
      subst hrest
      refine ⟨stM, ?_, ?_, ?_⟩
      · rw [if_pos hbreak]
      · simp [hproc]
      · simp [hcd]
    · rw [if_neg hbreak]
      rcases ih stM (fun x hx => hclean x (by simp [hx])) (by omega)
          with ⟨st2, hloop, hp2, hc2⟩
      refine ⟨st2, hloop, ?_, ?_⟩
      · rw [hp2, hproc, List.length_cons]
        omega
      · rw [hc2, hcd, List.flatMap_cons, List.append_assoc]

theorem processLoop_download_sum (ch : Channel) (allowed : List String)
    (maxsizeMB : ℤ) (dir : String) (fs : String → Bool) (maxLimit : Nat)
    (l : List Message) :
    ∀ st : RunState,
      (loopOutState (processLoop ch allowed maxsizeMB dir .download fs
          maxLimit l st)).downloaded
        + (loopOutState (processLoop ch allowed maxsizeMB dir .download fs
          maxLimit l st)).existed
        + st.channelData.length
      = st.downloaded + st.existed
        + (loopOutState (processLoop ch allowed maxsizeMB dir .download fs
          maxLimit l st)).channelData.length := by
  induction l with
  | nil => intro st; simp [processLoop, loopOutState]
  | cons m rest ih =>
    intro st
    cases hok : processMessage m ch allowed maxsizeMB dir .download fs with
    | error e =>
      rw [processLoop_cons_error m rest st (stepMessage_error st m hok)]
      simp [loopOutState]
    | ok fds =>
      rw [processLoop_cons_ok m rest st (stepMessage_ok st m hok)]
      have hsum : (fds.foldl (applyFileData .download m)
            { st with processed := st.processed + 1 }).downloaded
          + (fds.foldl (applyFileData .download m)
            { st with processed := st.processed + 1 }).existed
          = st.downloaded + st.existed + fds.length := by
        simpa using foldl_applyFileData_download_sum m fds
          { st with processed := st.processed + 1 }
      have hlen : (fds.foldl (applyFileData .download m)
            { st with processed := st.processed + 1 }).channelData.length
          = st.channelData.length + fds.length := by
        rw [foldl_applyFileData_channelData]
        simp
      split
      · dsimp only [loopOutState]
        omega
      · have hih := ih (fds.foldl (applyFileData .download m)
          { st with processed := st.processed + 1 })
        omega

theorem processLoop_list_counts (ch : Channel) (allowed : List String)
    (maxsizeMB : ℤ) (dir : String) (fs : String → Bool) (maxLimit : Nat)
    (l : List Message) :
    ∀ st : RunState,
      (loopOutState (processLoop ch allowed maxsizeMB dir .list fs
          maxLimit l st)).downloaded = st.downloaded
      ∧ (loopOutState (processLoop ch allowed maxsizeMB dir .list fs
          maxLimit l st)).existed = st.existed := by
  induction l with
  | nil => intro st; simp [processLoop, loopOutState]
  | cons m rest ih =>
    intro st
    cases hok : processMessage m ch allowed maxsizeMB dir .list fs with
    | error e =>
      rw [processLoop_cons_error m rest st (stepMessage_error st m hok)]
      simp [loopOutState]
    | ok fds =>
      rw [processLoop_cons_ok m rest st (stepMessage_ok st m hok)]
      have hfe : ∀ fd ∈ fds, fd.fileExists = false :=
        fun fd hfd => (processMessage_list_fileExists m ch allowed maxsizeMB
          dir fs fds hok fd hfd).1
      have hcounts : (fds.foldl (applyFileData .list m)
            { st with processed := st.processed + 1 }).downloaded = st.downloaded
          ∧ (fds.foldl (applyFileData .list m)
            { st with processed := st.processed + 1 }).existed = st.existed := by
        simpa using foldl_applyFileData_list_counts m fds
          { st with processed := st.processed + 1 } hfe
      split
      · dsimp only [loopOutState]
        exact hcounts
      · have hih := ih (fds.foldl (applyFileData .list m)
          { st with processed := st.processed + 1 })
        exact ⟨by rw [hih.1, hcounts.1], by rw [hih.2, hcounts.2]⟩

theorem processMessage_error_shape (m : Message) (ch : Channel)
    (allowed : List String) (maxsizeMB : ℤ) (dir : String) (mode : Mode)
    (fs : String → Bool) (e : ExportError)
    (h : processMessage m ch allowed maxsizeMB dir mode fs = .error e) :
    e = .docAccessError m.id := by
  cases hm : m.media with
  | noMedia => simp [processMessage, hm] at h
  | mediaList ds => simp [processMessage, hm] at h
  | mediaDocument d =>
    cases hd : d.document with
    | none =>
      simp only [processMessage, hm, processDoc, hd] at h
      exact (Except.error.inj h).symm
    | some doc =>
      rw [processMessage_eq m ch allowed maxsizeMB dir mode fs d doc hm hd] at h
      exact absurd h (by simp)

theorem stepMessage_error_shape (ch : Channel) (allowed : List String)
    (maxsizeMB : ℤ) (dir : String) (mode : Mode) (fs : String → Bool)
    (st : RunState) (m : Message) (p : RunState × ExportError)
    (h : stepMessage ch allowed maxsizeMB dir mode fs st m = .error p) :
    p.2 = .docAccessError m.id := by
  cases hpm : processMessage m ch allowed maxsizeMB dir mode fs with
  | error e =>
    rw [stepMessage_error st m hpm] at h
    have hp := (Except.error.inj h)
    rw [← hp]
    exact processMessage_error_shape m ch allowed maxsizeMB dir mode fs e hpm
  | ok fds =>
    rw [stepMessage_ok st m hpm] at h
    exact absurd h (by simp)

theorem processLoop_error_shape (ch : Channel) (allowed : List String)
    (maxsizeMB : ℤ) (dir : String) (mode : Mode) (fs : String → Bool)
    (maxLimit : Nat) (l : List Message) :
    ∀ (st : RunState) (p : RunState × ExportError),
      processLoop ch allowed maxsizeMB dir mode fs maxLimit l st = .error p →
      ∃ i, p.2 = .docAccessError i := by
  induction l with
  | nil => intro st p h; exact absurd h (by simp [processLoop])
  | cons m rest ih =>
    intro st p h
    cases hstep : stepMessage ch allowed maxsizeMB dir mode fs st m with
    | error q =>
      rw [processLoop_cons_error m rest st hstep] at h
      have := Except.error.inj h
      subst this
      exact ⟨m.id, stepMessage_error_shape ch allowed maxsizeMB dir mode fs
        st m q hstep⟩
    | ok st2 =>
      rw [processLoop_cons_ok m rest st hstep] at h
      split at h
      · exact absurd h (by simp)
      · exact ih st2 p h

/-! ## Concrete fixtures used by witnesses and counterexamples -/

/-- A resolved channel with a public handle. -/
def chW : Channel := { id := -1001234, username := some "news", displayName := "News" }

/-- An inner document with an allowed `.csv` name and a small size. -/
def csvTL : TLDocument := { attributes := [some "data.csv"], size := 1000 }

/-- An inner document with a disallowed `.exe` name. -/
def exeTL : TLDocument := { attributes := [some "tool.exe"], size := 1000 }

/-- A `MessageMediaDocument` wrapping the `.csv` document. -/
def csvDoc : MediaDoc := { document := some csvTL }

/-- A `MessageMediaDocument` wrapping the `.exe` document. -/
def exeDoc : MediaDoc := { document := some exeTL }

/-- A message carrying the `.csv` document. -/
def msgCsv : Message :=
  { id := 1, dateYMD := "20240105", dateFull := "2024-01-05 10:00:00",
    media := .mediaDocument csvDoc }

/-- A message carrying the `.exe` document. -/
def msgExe : Message :=
  { id := 2, dateYMD := "20240105", dateFull := "2024-01-05 11:00:00",
    media := .mediaDocument exeDoc }

/-- A message whose media is a list of two documents, one admissible and
one with a disallowed extension. -/
def msgTwoDocs : Message :=
  { id := 3, dateYMD := "20240105", dateFull := "2024-01-05 12:00:00",
    media := .mediaList [csvDoc, exeDoc] }

/-- A message whose `MessageMediaDocument` has `document = None`, so
accessing `doc.document.attributes` raises `AttributeError`. -/
def badMsg : Message :=
  { id := 4, dateYMD := "20240105", dateFull := "2024-01-05 13:00:00",
    media := .mediaDocument { document := none } }

/-! ## Theorems -/

/-- The computable MiB value is the exact division `sizeBytes / (1024*1024)`. -/
theorem fsizeMBOf_eq_div (b : Nat) : fsizeMBOf b = (b : ℚ) / (1024 * 1024) := by
  rw [fsizeMBOf, Rat.mkRat_eq_div]
  norm_num

/-- C5: for every byte size `b` and limit `L`, the size check accepts `b`
iff `b / (1024*1024) ≤ L` (exact division); in particular a size whose MiB
value exactly equals the limit is accepted, the comparison being
non-strict. -/
theorem sizePolicy_nonstrict (b : Nat) (L : ℤ) :
    isWithinLimit b L = true ↔ (b : ℚ) / (1024 * 1024) ≤ (L : ℚ) := by
  simp [isWithinLimit, fsizeMBOf_eq_div, not_lt]

/-- C6 counterexample: when the configured allowed set contains the empty
string, the empty extension is accepted, so `isAllowed "" S` is not false
for every `S`. -/
theorem isAllowed_empty_ext_accepted : isAllowed "" [""] = true := by decide

/-- C6 (amended): the empty (or missing) extension is rejected for every
allowed set none of whose members lower-cases to the empty string — in
particular for the default configuration, whose members are all non-empty
dot-prefixed extensions. -/
theorem isAllowed_empty_ext_false (S : List String)
    (h : ∀ s ∈ S, pyLower s ≠ "") : isAllowed "" S = false := by
  simp only [isAllowed, List.any_eq_false]
  intro e he
  simpa using fun hEq => h e he hEq.symm

/-- Witness for C6 (amended) at the default allowed set. -/
theorem isAllowed_empty_ext_false_witness :
    isAllowed "" [".zip", ".tar", ".gz", ".7z", ".rar", ".xls", ".xlsx",
      ".csv", ".txt", ".doc", ".docx"] = false :=
  isAllowed_empty_ext_false _ (by decide)

/-- C9: when channel resolution fails, the run aborts during
initialization: zero messages processed, an empty manifest, no transfers,
and the manifest writer never invoked. -/
theorem resolveFailure_aborts_run (e : ExportError) (msgs : List Message)
    (maxLimit : Nat) (mode : Mode) (output : Bool) (downloadDir : String)
    (maxsizeMB : ℤ) (allowed : List String) (fsExists : String → Bool) :
    exportDocuments (.error e) msgs maxLimit mode output downloadDir
      maxsizeMB allowed fsExists =
    { processed := 0, manifest := [], downloaded := 0, existed := 0,
      transfers := [], writerInvoked := false, error := some e } := rfl

/-- C3: the code, evaluated at a message whose media is a list of two
documents (one admissible `.csv`, one disallowed `.exe`), yields no
decision at all — the `isinstance(message.media, MessageMediaDocument)`
guard rejects list-valued media — while the same documents attached
individually are evaluated independently (the `.csv` admitted, the `.exe`
rejected without affecting it). -/
theorem twoDocMessage_yields_no_decisions :
    processMessage msgTwoDocs chW [".csv"] 3072 "/dl" .list (fun _ => false)
      = .ok []
    ∧ processMessage msgCsv chW [".csv"] 3072 "/dl" .list (fun _ => false)
      = .ok [{ fileName := "data.csv", filePath := none,
               postUrl := "https://t.me/news/1", fileExists := false,
               fsizeMB := fsizeMBOf 1000 }]
    ∧ processMessage msgExe chW [".csv"] 3072 "/dl" .list (fun _ => false)
      = .ok [] := by
  decide

/-- C2 counterexample: a run over two messages whose first raises during
extraction (its `MessageMediaDocument` has no inner document) stops after
that first message: the admissible second message is never processed, no
manifest entry is produced, and the writer is not invoked — the
orchestrator does not continue with the next message. -/
theorem perMessage_failure_aborts_run :
    exportDocuments (.ok chW) [badMsg, msgCsv] 10 .list true "/dl" 3072
      [".csv"] (fun _ => false) =
    { processed := 1, manifest := [], downloaded := 0, existed := 0,
      transfers := [], writerInvoked := false,
      error := some (.docAccessError 4) } := by
  decide

/-- C2 (amended): every failure is caught by the single run-level handler
(the run always returns an outcome with the error recorded), but a
per-message failure terminates the run rather than skipping to the next
message: whenever an error is recorded the manifest writer is never
invoked, and only when the run ends without error is the writer invoked
(when output is enabled); a recorded `resolveFailure` can only come from
channel resolution, in which case nothing was processed or transferred. -/
theorem runLevel_error_handling (resolved : Except ExportError Channel)
    (msgs : List Message) (maxLimit : Nat) (mode : Mode) (output : Bool)
    (dir : String) (maxsizeMB : ℤ) (allowed : List String)
    (fs : String → Bool) :
    ((exportDocuments resolved msgs maxLimit mode output dir maxsizeMB
        allowed fs).error.isSome = true →
      (exportDocuments resolved msgs maxLimit mode output dir maxsizeMB
        allowed fs).writerInvoked = false)
    ∧ ((exportDocuments resolved msgs maxLimit mode output dir maxsizeMB
        allowed fs).error = none →
      (exportDocuments resolved msgs maxLimit mode output dir maxsizeMB
        allowed fs).writerInvoked = output)
    ∧ ((exportDocuments resolved msgs maxLimit mode output dir maxsizeMB
        allowed fs).error = some .resolveFailure →
      (exportDocuments resolved msgs maxLimit mode output dir maxsizeMB
        allowed fs).processed = 0
      ∧ (exportDocuments resolved msgs maxLimit mode output dir maxsizeMB
        allowed fs).manifest = []
      ∧ (exportDocuments resolved msgs maxLimit mode output dir maxsizeMB
        allowed fs).transfers = []) := by
  cases resolved with
  | error e =>
    refine ⟨fun _ => rfl, fun hnone => ?_, fun _ => ⟨rfl, rfl, rfl⟩⟩
    simp [exportDocuments] at hnone
  | ok ch =>
    cases hloop : processLoop ch allowed maxsizeMB dir mode fs maxLimit
        (msgs.take maxLimit) initState with
    | error p =>
      rcases p with ⟨stE, e⟩
      refine ⟨fun _ => by simp [exportDocuments, hloop], ?_, ?_⟩
      · intro hnone
        simp [exportDocuments, hloop] at hnone
      · intro hres
        simp only [exportDocuments, hloop, Option.some_inj] at hres
        rcases processLoop_error_shape ch allowed maxsizeMB dir mode fs
            maxLimit (msgs.take maxLimit) initState (stE, e) hloop with ⟨i, hi⟩
        have hi2 : e = .docAccessError i := hi
        rw [hres] at hi2
        exact absurd hi2 (by simp)
    | ok st =>
      refine ⟨?_, fun _ => by simp [exportDocuments, hloop], ?_⟩
      · intro hsome
        simp [exportDocuments, hloop] at hsome
      · intro hres
        simp [exportDocuments, hloop] at hres

/-- Witness for C2 (amended): at a concrete failing run the writer is not
invoked. -/
theorem runLevel_error_handling_witness :
    (exportDocuments (.ok chW) [badMsg, msgCsv] 10 .list true "/dl" 3072
      [".csv"] (fun _ => false)).writerInvoked = false :=
  (runLevel_error_handling (.ok chW) [badMsg, msgCsv] 10 .list true "/dl"
    3072 [".csv"] (fun _ => false)).1 (by decide)

/-- C1: over any run on a resolved channel whose messages are within the
transport's real domain (media is never a list, inner documents present),
the manifest is exactly the concatenation, over the processed messages, of
one entry per attachment passing all three checks — and an attachment
contributes an entry iff it has a non-empty (stripped) file name, an
allowed extension, and a size within the ceiling. -/
theorem manifest_iff_admissible (ch : Channel) (msgs : List Message)
    (maxLimit : Nat) (mode : Mode) (output : Bool) (dir : String)
    (maxsizeMB : ℤ) (allowed : List String) (fs : String → Bool)
    (h : ∀ m ∈ msgs, cleanMsg m = true) :
    (exportDocuments (.ok ch) msgs maxLimit mode output dir maxsizeMB
        allowed fs).manifest
      = (msgs.take maxLimit).flatMap (admissibleEntries ch allowed maxsizeMB)
    ∧ ∀ (m : Message) (d : MediaDoc) (doc : TLDocument),
        m.media = .mediaDocument d → d.document = some doc →
        (admissibleEntries ch allowed maxsizeMB m ≠ []
          ↔ passesChecks allowed maxsizeMB doc = true) := by
  constructor
  · rcases processLoop_clean ch allowed maxsizeMB dir mode fs maxLimit
        (msgs.take maxLimit) initState
        (fun m hm => h m (List.mem_of_mem_take hm))
        (by simp [initState, List.length_take]) with ⟨st2, hloop, _, hcd⟩
    simp only [exportDocuments, hloop]
    simp [hcd, initState]
  · intro m d doc hm hd
    cases hnm : firstFileName doc.attributes with
    | none => simp [admissibleEntries, passesChecks, hm, hd, hnm]
    | some nm =>
      by_cases hc : (nm != "" && isAllowed (fileExt nm) allowed
          && isWithinLimit doc.size maxsizeMB) = true
      · simp [admissibleEntries, passesChecks, hm, hd, hnm, hc]
      · simp [admissibleEntries, passesChecks, hm, hd, hnm, hc]

/-- Witness for C1 at a concrete two-message run. -/
theorem manifest_iff_admissible_witness :
    (exportDocuments (.ok chW) [msgCsv, msgExe] 10 .list true "/dl" 3072
      [".csv"] (fun _ => false)).manifest
      = ([msgCsv, msgExe].take 10).flatMap (admissibleEntries chW [".csv"] 3072) :=
  (manifest_iff_admissible chW [msgCsv, msgExe] 10 .list true "/dl" 3072
    [".csv"] (fun _ => false) (by decide)).1

/-- C4: a run over a source yielding `N` messages with maximum `M`, all
messages within the transport's real domain, processes exactly
`min N M` messages, and the manifest holds entries only from those first
`min N M` messages. -/
theorem bounded_iteration (ch : Channel) (msgs : List Message)
    (maxLimit : Nat) (mode : Mode) (output : Bool) (dir : String)
    (maxsizeMB : ℤ) (allowed : List String) (fs : String → Bool)
    (h : ∀ m ∈ msgs, cleanMsg m = true) :
    (exportDocuments (.ok ch) msgs maxLimit mode output dir maxsizeMB
        allowed fs).processed = min msgs.length maxLimit
    ∧ (exportDocuments (.ok ch) msgs maxLimit mode output dir maxsizeMB
        allowed fs).manifest
      = (msgs.take maxLimit).flatMap (admissibleEntries ch allowed maxsizeMB) := by
  rcases processLoop_clean ch allowed maxsizeMB dir mode fs maxLimit
      (msgs.take maxLimit) initState
      (fun m hm => h m (List.mem_of_mem_take hm))
      (by simp [initState, List.length_take]) with ⟨st2, hloop, hproc, hcd⟩
  constructor
  · simp only [exportDocuments, hloop]
    simp [hproc, initState, List.length_take, Nat.min_comm]
  · simp only [exportDocuments, hloop]
    simp [hcd, initState]

/-- Witness for C4: three messages, limit 2 — exactly 2 processed. -/
theorem bounded_iteration_witness :
    (exportDocuments (.ok chW) [msgCsv, msgExe, msgCsv] 2 .list true "/dl"
      3072 [".csv"] (fun _ => false)).processed = min 3 2 :=
  (bounded_iteration chW [msgCsv, msgExe, msgCsv] 2 .list true "/dl" 3072
    [".csv"] (fun _ => false) (by decide)).1

/-- C7: in download mode, for an admissible attachment the orchestrator
appends its manifest entry and then: if the computed destination path
already exists, it requests no transfer and increments only the
"already existed" counter; if the path does not exist, it requests exactly
one transfer of that path and increments only the "downloaded" counter. -/
theorem download_decision (ch : Channel) (allowed : List String)
    (maxsizeMB : ℤ) (dir : String) (fs : String → Bool) (st : RunState)
    (m : Message) (d : MediaDoc) (doc : TLDocument) (nm : String)
    (hm : m.media = .mediaDocument d) (hd : d.document = some doc)
    (hnm : firstFileName doc.attributes = some nm) (hne : nm ≠ "")
    (hext : isAllowed (fileExt nm) allowed = true)
    (hsize : isWithinLimit doc.size maxsizeMB = true) :
    ∃ st2, stepMessage ch allowed maxsizeMB dir .download fs st m = .ok st2
      ∧ st2.channelData = st.channelData
          ++ [{ fileName := nm, datePosted := m.dateFull,
                combinedName := sanitizeFilename m nm,
                postUrl := getPostUrl ch m }]
      ∧ st2.processed = st.processed + 1
      ∧ (fs (osPathJoin dir (sanitizeFilename m nm)) = true →
          st2.transfers = st.transfers ∧ st2.existed = st.existed + 1
          ∧ st2.downloaded = st.downloaded)
      ∧ (fs (osPathJoin dir (sanitizeFilename m nm)) = false →
          st2.transfers = st.transfers
              ++ [osPathJoin dir (sanitizeFilename m nm)]
          ∧ st2.downloaded = st.downloaded + 1
          ∧ st2.existed = st.existed) := by
  have hdd : docDecision m ch allowed maxsizeMB dir .download fs doc
      = some { fileName := nm,
               filePath := some (osPathJoin dir (sanitizeFilename m nm)),
               postUrl := getPostUrl ch m,
               fileExists := fs (osPathJoin dir (sanitizeFilename m nm)),
               fsizeMB := fsizeMBOf doc.size } := by
    simp [docDecision, hnm, hne, hext, hsize]
  have hok := processMessage_eq m ch allowed maxsizeMB dir .download fs
    d doc hm hd
  rw [hdd] at hok
  refine ⟨_, stepMessage_ok st m hok, ?_, ?_, ?_, ?_⟩
  · cases hex : fs (osPathJoin dir (sanitizeFilename m nm)) <;>
      simp [applyFileData, mkEntry, hex]
  · cases hex : fs (osPathJoin dir (sanitizeFilename m nm)) <;>
      simp [applyFileData, hex]
  · intro hex
    simp [applyFileData, hex]
  · intro hex
    simp [applyFileData, hex]

/-- Witness for C7 at a concrete admissible attachment with both a
pre-existing and an absent destination file. -/
theorem download_decision_witness :
    (∃ st2, stepMessage chW [".csv"] 3072 "/dl" .download (fun _ => true)
        initState msgCsv = .ok st2
      ∧ st2.channelData = initState.channelData
          ++ [{ fileName := "data.csv", datePosted := msgCsv.dateFull,
                combinedName := sanitizeFilename msgCsv "data.csv",
                postUrl := getPostUrl chW msgCsv }]
      ∧ st2.processed = initState.processed + 1
      ∧ ((fun _ => true) (osPathJoin "/dl" (sanitizeFilename msgCsv "data.csv"))
            = true →
          st2.transfers = initState.transfers
          ∧ st2.existed = initState.existed + 1
          ∧ st2.downloaded = initState.downloaded)
      ∧ ((fun _ => true) (osPathJoin "/dl" (sanitizeFilename msgCsv "data.csv"))
            = false →
          st2.transfers = initState.transfers
              ++ [osPathJoin "/dl" (sanitizeFilename msgCsv "data.csv")]
          ∧ st2.downloaded = initState.downloaded + 1
          ∧ st2.existed = initState.existed)) :=
  download_decision chW [".csv"] 3072 "/dl" (fun _ => true) initState msgCsv
    csvDoc csvTL "data.csv" rfl rfl (by decide) (by decide) (by decide)
    (by decide)

/-- C8: in list mode the per-message pipeline is independent of the
filesystem-existence capability (it never probes the filesystem), and
every decision it returns leaves the local path unset and reports
`fileExists = false`. -/
theorem list_mode_no_fs (m : Message) (ch : Channel) (allowed : List String)
    (maxsizeMB : ℤ) (dir : String) (fs1 fs2 : String → Bool) :
    processMessage m ch allowed maxsizeMB dir .list fs1
      = processMessage m ch allowed maxsizeMB dir .list fs2
    ∧ ∀ fds, processMessage m ch allowed maxsizeMB dir .list fs1 = .ok fds →
        ∀ fd ∈ fds, fd.filePath = none ∧ fd.fileExists = false := by
  constructor
  · cases hm : m.media with
    | noMedia => simp [processMessage, hm]
    | mediaList ds => simp [processMessage, hm]
    | mediaDocument d =>
      cases hd : d.document with
      | none => simp [processMessage, processDoc, hm, hd]
      | some doc =>
        rw [processMessage_eq m ch allowed maxsizeMB dir .list fs1 d doc hm hd,
          processMessage_eq m ch allowed maxsizeMB dir .list fs2 d doc hm hd,
          docDecision_list_indep m ch allowed maxsizeMB dir fs1 fs2 doc]
  · intro fds hok fd hfd
    have := processMessage_list_fileExists m ch allowed maxsizeMB dir fs1
      fds hok fd hfd
    exact ⟨this.2, this.1⟩

/-- Witness for C8: a concrete message processed in list mode yields the
same result under two different filesystem oracles. -/
theorem list_mode_no_fs_witness :
    processMessage msgCsv chW [".csv"] 3072 "/dl" .list (fun _ => true)
      = processMessage msgCsv chW [".csv"] 3072 "/dl" .list (fun _ => false) :=
  (list_mode_no_fs msgCsv chW [".csv"] 3072 "/dl" (fun _ => true)
    (fun _ => false)).1

/-- C10: in download mode every manifest entry increments exactly one of
the two counters, so after any run (completed or aborted) their sum equals
the number of accumulated manifest entries; in list mode both counters
stay zero. -/
theorem counters_manifest_sum (resolved : Except ExportError Channel)
    (msgs : List Message) (maxLimit : Nat) (mode : Mode) (output : Bool)
    (dir : String) (maxsizeMB : ℤ) (allowed : List String)
    (fs : String → Bool) :
    (mode = Mode.download →
      (exportDocuments resolved msgs maxLimit mode output dir maxsizeMB
          allowed fs).downloaded
        + (exportDocuments resolved msgs maxLimit mode output dir maxsizeMB
          allowed fs).existed
      = (exportDocuments resolved msgs maxLimit mode output dir maxsizeMB
          allowed fs).manifest.length)
    ∧ (mode = Mode.list →
      (exportDocuments resolved msgs maxLimit mode output dir maxsizeMB
          allowed fs).downloaded = 0
      ∧ (exportDocuments resolved msgs maxLimit mode output dir maxsizeMB
          allowed fs).existed = 0) := by
  cases resolved with
  | error e => exact ⟨fun _ => by simp [exportDocuments],
      fun _ => by simp [exportDocuments]⟩
  | ok ch =>
    constructor
    · intro hmode
      subst hmode
      have hsum := processLoop_download_sum ch allowed maxsizeMB dir fs
        maxLimit (msgs.take maxLimit) initState
      cases hloop : processLoop ch allowed maxsizeMB dir .download fs
          maxLimit (msgs.take maxLimit) initState with
      | error p =>
        rcases p with ⟨stE, e⟩
        rw [hloop] at hsum
        simp [loopOutState, initState] at hsum
        have hexp : exportDocuments (.ok ch) msgs maxLimit .download output
            dir maxsizeMB allowed fs =
          { processed := stE.processed, manifest := stE.channelData,
            downloaded := stE.downloaded, existed := stE.existed,
            transfers := stE.transfers, writerInvoked := false,
            error := some e } := by
          simp [exportDocuments, hloop]
        rw [hexp]
        dsimp only
        omega
      | ok st =>
        rw [hloop] at hsum
        simp [loopOutState, initState] at hsum
        have hexp : exportDocuments (.ok ch) msgs maxLimit .download output
            dir maxsizeMB allowed fs =
          { processed := st.processed, manifest := st.channelData,
            downloaded := st.downloaded, existed := st.existed,
            transfers := st.transfers, writerInvoked := output,
            error := none } := by
          simp [exportDocuments, hloop]
        rw [hexp]
        dsimp only
        omega
    · intro hmode
      subst hmode
      have hcounts := processLoop_list_counts ch allowed maxsizeMB dir fs
        maxLimit (msgs.take maxLimit) initState
      cases hloop : processLoop ch allowed maxsizeMB dir .list fs
          maxLimit (msgs.take maxLimit) initState with
      | error p =>
        rcases p with ⟨stE, e⟩
        rw [hloop] at hcounts
        simp [loopOutState, initState] at hcounts
        have hexp : exportDocuments (.ok ch) msgs maxLimit .list output
            dir maxsizeMB allowed fs =
          { processed := stE.processed, manifest := stE.channelData,
            downloaded := stE.downloaded, existed := stE.existed,
            transfers := stE.transfers, writerInvoked := false,
            error := some e } := by
          simp [exportDocuments, hloop]
        rw [hexp]
        dsimp only
        exact hcounts
      | ok st =>
        rw [hloop] at hcounts
        simp [loopOutState, initState] at hcounts
        have hexp : exportDocuments (.ok ch) msgs maxLimit .list output
            dir maxsizeMB allowed fs =
          { processed := st.processed, manifest := st.channelData,
            downloaded := st.downloaded, existed := st.existed,
            transfers := st.transfers, writerInvoked := output,
            error := none } := by
          simp [exportDocuments, hloop]
        rw [hexp]
        dsimp only
        exact hcounts

/-- Witness for C10 at a concrete download-mode run. -/
theorem counters_manifest_sum_witness :
    (exportDocuments (.ok chW) [msgCsv, msgExe] 10 .download true "/dl" 3072
      [".csv"] (fun _ => false)).downloaded
      + (exportDocuments (.ok chW) [msgCsv, msgExe] 10 .download true "/dl"
        3072 [".csv"] (fun _ => false)).existed
      = (exportDocuments (.ok chW) [msgCsv, msgExe] 10 .download true "/dl"
        3072 [".csv"] (fun _ => false)).manifest.length :=
  (counters_manifest_sum (.ok chW) [msgCsv, msgExe] 10 .download true "/dl"
    3072 [".csv"] (fun _ => false)).1 rfl

end TelegramFileExporter
